import Mathlib

/-!
Verification development for the `atlas` contract-audit pipeline
(`src/auditor/run_audit.py`).  The Python source is shallowly embedded:
strings are modelled as `List Char`, byte strings as `List Nat`, fallible
external calls as `Except Unit` results passed in as explicit arguments,
and Python exceptions escaping a function as `Except.error`.
-/

/- ### Shared character and string utilities -/

/-- ASCII whitespace recognised by Python `str.strip` and the `re` module
class for whitespace (space, tab, newline, carriage return, vertical tab,
form feed).  Source lines are ASCII, so the additional Unicode whitespace
accepted by Python does not arise. -/
def asciiWs (c : Char) : Bool :=
  c = ' ' || c = '\t' || c = '\n' || c = '\r' || c = '\x0b' || c = '\x0c'

/-- Python `str.strip` on a character list: drop ASCII whitespace from both
ends. -/
def pyStripChars (cs : List Char) : List Char :=
  ((cs.dropWhile asciiWs).reverse.dropWhile asciiWs).reverse

/- ### StorageSlotResolver: `detect_proxy_and_impl` -/

/-- Hexadecimal digit character for a value below 16, lowercase as produced
by Python `bytes.hex`. -/
def hexDigitChar (n : Nat) : Char :=
  if n < 10 then Char.ofNat (48 + n) else Char.ofNat (87 + n)

/-- Two lowercase hex digits of one byte, as in Python `bytes.hex`. -/
def byteHexChars (b : Nat) : List Char :=
  [hexDigitChar (b / 16 % 16), hexDigitChar (b % 16)]

/-- Lowercase hex rendering of a byte string (Python `bytes.hex`). -/
def bytesHexChars (bs : List Nat) : List Char :=
  bs.flatMap byteHexChars

/-- Model of the library call `Web3.to_checksum_address` applied to the hex
rendering of a 20-byte string: it returns the 0x-prefixed hexadecimal text
of those bytes.  The EIP-55 casing step (which uppercases some letter
digits according to a keccak hash of the lowercase rendering) is not
modelled: it only changes the letter case of the textual form, never which
20-byte address the string denotes, its length, or its nonemptiness, and
on an all-zero address it is the identity. -/
def to_checksum_address (bs : List Nat) : List Char :=
  '0' :: 'x' :: bytesHexChars bs

/-- The checksummed zero address, `0x` followed by forty zero digits. -/
def zeroAddressText : List Char :=
  "0x0000000000000000000000000000000000000000".data

/-- `detect_proxy_and_impl` from `run_audit.py`.  The storage read
`w3.eth.get_storage_at(addr, EIP1967_IMPLEMENTATION_SLOT)` is passed in as
an `Except Unit (List Nat)`: `.error` when the read raises, `.ok raw` when
it returns the byte string `raw`.  The Python code returns the checksummed
address of `raw[-20:]` when `raw` is truthy (nonempty) and exactly 32
bytes long, and `None` otherwise; an exception is swallowed into `None`. -/
def detect_proxy_and_impl (read : Except Unit (List Nat)) : Option (List Char) :=
  match read with
  | .error _ => none
  | .ok raw =>
    if raw ≠ [] ∧ raw.length = 32 then
      some (to_checksum_address (raw.drop (raw.length - 20)))
    else
      none

/- ### AuditOrchestrator: target selection and block-bound defaulting -/

/-- The orchestrator's source-fetch target, `target = impl or address` in
`main`: Python `or` returns `address` when `impl` is `None` or the empty
string, and `impl` otherwise. -/
def fetchTarget (read : Except Unit (List Nat)) (address : List Char) : List Char :=
  match detect_proxy_and_impl read with
  | none => address
  | some s => if s = [] then address else s

/-- `from_block = args.from_block or max(0, latest - 200000)` in `main`:
an absent argument, and likewise an argument equal to the falsy integer 0,
is replaced by the default. -/
def resolvedFromBlock (argFrom : Option Int) (latest : Int) : Int :=
  match argFrom with
  | none => max 0 (latest - 200000)
  | some v => if v = 0 then max 0 (latest - 200000) else v

/-- `to_block = args.to_block or latest` in `main`. -/
def resolvedToBlock (argTo : Option Int) (latest : Int) : Int :=
  match argTo with
  | none => latest
  | some v => if v = 0 then latest else v

/- ### EventLogRetriever: `scan_logs` -/

/-- The three event signature hashes precomputed at module load.  Each is
the keccak-256 hash of the event signature text, written out as the
resulting 256-bit value:
`TRANSFER_TOPIC`  is keccak-256 of the text Transfer(address,address,uint256). -/
def TRANSFER_TOPIC : Nat :=
  0xddf252ad1be2c89b69c2b068fc378daa952ba7f163c4a11628f55a4df523b3ef

/-- Keccak-256 of the text Blacklisted(address). -/
def BLACKLISTED_TOPIC : Nat :=
  0xffa4e6181777692565cf28528fc88fd1516ea86b56da075235fa575af6a4b855

/-- Keccak-256 of the text Upgraded(address). -/
def UPGR_TOPIC : Nat :=
  0xbc7cd75a20ee27fd9adebab32041f755214dbc6bffa90cc0225b39da2e5c2d3b

/-- Keccak-256 of the text OwnershipTransferred(address,address); computed
by the module but unused by `scan_logs`. -/
def OWNERSHIP_TX_TOPIC : Nat :=
  0x8be0079c531659141344cd1fd0a4f28419497f9722a3daafe3b4186f6b6457e0

/-- One raw log record as returned by `w3.eth.get_logs`: block number,
transaction hash and the ordered topic values (each a 32-byte value,
modelled as `Nat`).  The dictionary `scan_logs` appends to its output
lists carries the same three fields (hex-stringified), so the output
entries are modelled by the same type. -/
structure Log where
  blockNumber : Nat
  txHash : Nat
  topics : List Nat
deriving DecidableEq

/-- The mapping `scan_logs` returns: one list per event kind. -/
structure ScanResult where
  transfer : List Log
  blacklisted : List Log
  upgraded : List Log
deriving DecidableEq

/-- The classification step of `scan_logs` for one log: read
`l["topics"][0]` (an `IndexError` — modelled as `.error` — when the log
has no topics, since that access sits outside the `try` block) and append
the log to the matching list of the `if`/`elif` chain, or to none of them
when no hash matches. -/
def classifyLog (r : ScanResult) (l : Log) : Except Unit ScanResult :=
  match l.topics with
  | [] => .error ()
  | t0 :: _ =>
    .ok (if t0 = TRANSFER_TOPIC then { r with transfer := r.transfer ++ [l] }
      else if t0 = BLACKLISTED_TOPIC then { r with blacklisted := r.blacklisted ++ [l] }
      else if t0 = UPGR_TOPIC then { r with upgraded := r.upgraded ++ [l] }
      else r)

/-- One iteration of the window loop of `scan_logs`: issue the query for
the window; a raised query (`.error`) is swallowed by the `try`/`except`
and the loop continues with the accumulator unchanged, otherwise every
returned log is classified. -/
def processWindow (query : Nat → Nat → Except Unit (List Log))
    (r : ScanResult) (w : Nat × Nat) : Except Unit ScanResult :=
  match query w.1 w.2 with
  | .error _ => .ok r
  | .ok logs => logs.foldlM classifyLog r

/-- The window ranges generated by
`for start in range(from_block, to_block + 1, step)` with
`end = min(to_block, start + step - 1)`, written with explicit fuel; the
fuel `to_block + 1 - start` bounds the iteration count whenever
`0 < step` (Python `range` rejects a non-positive step). -/
def queryWindowsAux (toB step : Nat) : Nat → Nat → List (Nat × Nat)
  | 0, _ => []
  | f + 1, start =>
    if start < toB + 1 then
      (start, min toB (start + step - 1)) :: queryWindowsAux toB step f (start + step)
    else []

/-- The list of `(start, end)` windows queried by `scan_logs`, in loop
order. -/
def queryWindows (fromB toB step : Nat) : List (Nat × Nat) :=
  queryWindowsAux toB step (toB + 1 - fromB) fromB

/-- `scan_logs` from `run_audit.py`: fold the window loop over the window
list, starting from three empty lists.  The per-window log query
`w3.eth.get_logs` is passed in as the function `query`. -/
def scan_logs (query : Nat → Nat → Except Unit (List Log))
    (from_block to_block step : Nat) : Except Unit ScanResult :=
  (queryWindows from_block to_block step).foldlM (processWindow query) ⟨[], [], []⟩

/-- The logs a query function delivers for one window: the returned list
on success, nothing when the query raises. -/
def okLogsOf (query : Nat → Nat → Except Unit (List Log)) (w : Nat × Nat) : List Log :=
  match query w.1 w.2 with
  | .ok ls => ls
  | .error _ => []

/-- All logs delivered across a window list, in window order. -/
def returnedLogs (query : Nat → Nat → Except Unit (List Log))
    (ws : List (Nat × Nat)) : List Log :=
  ws.flatMap (okLogsOf query)

/-- Every log of every successful window has at least one topic (so the
`l["topics"][0]` access never raises). -/
def wellTopicsB (query : Nat → Nat → Except Unit (List Log))
    (ws : List (Nat × Nat)) : Bool :=
  ws.all fun w =>
    match query w.1 w.2 with
    | .error _ => true
    | .ok ls => ls.all fun l => !l.topics.isEmpty

/-- First topic equals the Transfer signature hash. -/
def isTransferLog (l : Log) : Bool := l.topics.head? == some TRANSFER_TOPIC

/-- First topic equals the Blacklisted signature hash. -/
def isBlacklistedLog (l : Log) : Bool := l.topics.head? == some BLACKLISTED_TOPIC

/-- First topic equals the Upgraded signature hash. -/
def isUpgradedLog (l : Log) : Bool := l.topics.head? == some UPGR_TOPIC

/- ### HeuristicScanner: `grep_patterns` -/

/-- Characters on which Python `str.splitlines` breaks a line. -/
def lineTerm (c : Char) : Bool :=
  c = '\n' || c = '\r' || c = '\x0b' || c = '\x0c' ||
  c = '\x1c' || c = '\x1d' || c = '\x1e' || c = '\x85' ||
  c = '\u2028' || c = '\u2029'

/-- Worker for `splitlines`; `acc` holds the reversed current line.  As in
Python, a terminator ends the current line, a carriage-return-newline pair
counts as a single terminator, and a final line without a terminator is
kept while a trailing terminator adds no empty final line. -/
def splitlinesAux : List Char → List Char → List (List Char)
  | acc, [] => if acc.isEmpty then [] else [acc.reverse]
  | acc, '\r' :: '\n' :: t => acc.reverse :: splitlinesAux [] t
  | acc, c :: t =>
    if lineTerm c then acc.reverse :: splitlinesAux [] t
    else splitlinesAux (c :: acc) t

/-- Python `str.splitlines`. -/
def splitlines (text : List Char) : List (List Char) :=
  splitlinesAux [] text

/-- ASCII word-constituent characters of the `re` module (the audited
source lines are ASCII). -/
def isWordChar (c : Char) : Bool :=
  ('a' ≤ c && c ≤ 'z') || ('A' ≤ c && c ≤ 'Z') || ('0' ≤ c && c ≤ '9') || c = '_'

/-- Match a literal pattern at the head of the text, returning the
remainder on success. -/
def matchLit : List Char → List Char → Option (List Char)
  | [], cs => some cs
  | _ :: _, [] => none
  | p :: ps, c :: cs => if c = p then matchLit ps cs else none

/-- The literal pattern matches at the head of the text. -/
def hasPre (pat cs : List Char) : Bool := (matchLit pat cs).isSome

/-- Python substring containment (the `in` operator): the pattern matches
at some position of the text. -/
def isSubstr (pat : List Char) : List Char → Bool
  | [] => pat.isEmpty
  | c :: t => hasPre pat (c :: t) || isSubstr pat t

/-- Word-boundary condition to the left of a match position: start of the
text or a preceding non-word character (the matched patterns all begin
with a word character). -/
def atBoundary (prev : Option Char) : Bool :=
  match prev with
  | none => true
  | some c => !isWordChar c

/-- The leading keyword of the declaration regex. -/
def kwFunction : List Char := "function".data

/-- The declared name of the declaration regex. -/
def nameInit : List Char := "initialize".data

/-- The declaration regex matches exactly at this position: the keyword,
one or more whitespace characters, the name, then a word boundary (end of
text or a non-word character). -/
def fnDeclAt (cs : List Char) : Bool :=
  match matchLit kwFunction cs with
  | none => false
  | some r1 =>
    match r1 with
    | [] => false
    | c :: _ =>
      if asciiWs c then
        match matchLit nameInit (r1.dropWhile asciiWs) with
        | none => false
        | some r2 =>
          match r2 with
          | [] => true
          | d :: _ => !isWordChar d
      else false

/-- `re.search` scan of the declaration regex over all start positions,
tracking the previous character for the left word boundary. -/
def scanFnDecl : Option Char → List Char → Bool
  | prev, [] => atBoundary prev && fnDeclAt []
  | prev, c :: t => (atBoundary prev && fnDeclAt (c :: t)) || scanFnDecl (some c) t

/-- The declaration regex matches somewhere in the line. -/
def reFnDecl (line : List Char) : Bool := scanFnDecl none line

/-- A call-shaped pattern (word boundary, the name, optional whitespace,
an opening parenthesis) matches exactly at this position. -/
def callAt (name cs : List Char) : Bool :=
  match matchLit name cs with
  | none => false
  | some r =>
    match r.dropWhile asciiWs with
    | '(' :: _ => true
    | _ => false

/-- `re.search` scan of a call-shaped pattern over all start positions. -/
def scanCallName (name : List Char) : Option Char → List Char → Bool
  | prev, [] => atBoundary prev && callAt name []
  | prev, c :: t => (atBoundary prev && callAt name (c :: t)) || scanCallName name (some c) t

/-- The call-shaped pattern for `name` matches somewhere in the line. -/
def reCallName (name line : List Char) : Bool := scanCallName name none line

/-- The first reinitializer hook substring. -/
def patV21 : List Char := "initializeV2_1".data

/-- The second reinitializer hook substring. -/
def patV2 : List Char := "initializeV2(".data

/-- The guard marker substring. -/
def ownerTok : List Char := "onlyOwner".data

/-- The internal-transfer call name. -/
def nameTransferCall : List Char := "_transfer".data

/-- The fixed list of five sensitive role-setter names. -/
def ROLE_SETTERS : List (List Char) :=
  [ "updateOracle".data, "updateBlacklister".data, "updatePauser".data,
    "updateMasterMinter".data, "updateRescuer".data ]

/-- A line triggering the init pass: the declaration regex matches, or the
line contains one of the two reinitializer substrings. -/
def matchInitLine (line : List Char) : Bool :=
  reFnDecl line || isSubstr patV21 line || isSubstr patV2 line

/-- Python newline `str.join`. -/
def joinNL : List (List Char) → List Char
  | [] => []
  | [x] => x
  | x :: y :: t => x ++ '\n' :: joinNL (y :: t)

/-- The lookahead context of the matched line: the slice
`lines[i - 1 : i + 3]` joined with newlines, where `k = i - 1` is the
0-based index of the matched line — the matched line plus the following
three lines, fewer at end of file. -/
def ctxWindow (lines : List (List Char)) (k : Nat) : List Char :=
  joinNL ((lines.drop k).take 4)

/-- The guard marker occurs in the text. -/
def hasOwner (cs : List Char) : Bool := isSubstr ownerTok cs

/-- The four finding categories of `grep_patterns`.  One entry is the pair
of the 1-based line number and the stripped line text; the Python code
formats the pair as the text "L", the number, ": " and the stripped line,
which carries exactly the same data. -/
structure Findings where
  init_functions : List (Nat × List Char)
  unprotected_inits : List (Nat × List Char)
  unprotected_role_setters : List (Nat × List Char)
  internal_transfer_calls : List (Nat × List Char)
deriving DecidableEq

/-- Entries of `init_functions`: the loop appends one entry per matching
line, in line order. -/
def initEntries (lines : List (List Char)) : List (Nat × List Char) :=
  lines.enum.filterMap fun p =>
    if matchInitLine p.2 then some (p.1 + 1, pyStripChars p.2) else none

/-- Entries of `unprotected_inits`: a matching line with no guard marker
on the line itself and none in the lookahead context. -/
def unprotInitEntries (lines : List (List Char)) : List (Nat × List Char) :=
  lines.enum.filterMap fun p =>
    if matchInitLine p.2 && !hasOwner p.2 && !hasOwner (ctxWindow lines p.1) then
      some (p.1 + 1, pyStripChars p.2)
    else none

/-- Entries of `unprotected_role_setters`: per line, the inner loop tries
the five setter names in order and appends one entry per matching name
whose lookahead context lacks the guard marker. -/
def setterEntries (lines : List (List Char)) : List (Nat × List Char) :=
  lines.enum.flatMap fun p =>
    ROLE_SETTERS.filterMap fun s =>
      if reCallName s p.2 && !hasOwner (ctxWindow lines p.1) then
        some (p.1 + 1, pyStripChars p.2)
      else none

/-- Entries of `internal_transfer_calls`: every call-shaped occurrence of
the internal transfer name, unconditionally. -/
def transferEntries (lines : List (List Char)) : List (Nat × List Char) :=
  lines.enum.filterMap fun p =>
    if reCallName nameTransferCall p.2 then some (p.1 + 1, pyStripChars p.2) else none

/-- `grep_patterns` from `run_audit.py`.  The Python loop visits the lines
once and appends to the four independent category lists; since no
category's appends depend on another's state, the loop is equivalently the
four per-category traversals above. -/
def grep_patterns (text : List Char) : Findings :=
  { init_functions := initEntries (splitlines text)
    unprotected_inits := unprotInitEntries (splitlines text)
    unprotected_role_setters := setterEntries (splitlines text)
    internal_transfer_calls := transferEntries (splitlines text) }

/- ### SourceTreeExpander: `try_json` and `expand_sources` -/

/-- Decidable equality for `Except`, used to evaluate concrete runs. -/
instance instDecEqExcept {ε α : Type} [DecidableEq ε] [DecidableEq α] :
    DecidableEq (Except ε α)
  | .ok x, .ok y =>
    if h : x = y then .isTrue (by rw [h]) else .isFalse (fun hh => h (Except.ok.inj hh))
  | .error e, .error f =>
    if h : e = f then .isTrue (by rw [h]) else .isFalse (fun hh => h (Except.error.inj hh))
  | .ok _, .error _ => .isFalse (fun hh => Except.noConfusion hh)
  | .error _, .ok _ => .isFalse (fun hh => Except.noConfusion hh)

/-- JSON values as produced by `json.loads`.  Numbers keep their lexeme —
the audited code never inspects a numeric value, only shapes; objects are
association lists in Python dict insertion order with unique keys. -/
inductive Json where
  | jnull
  | jbool (b : Bool)
  | jnum (lexeme : List Char)
  | jstr (s : List Char)
  | jarr (xs : List Json)
  | jobj (kvs : List (List Char × Json))

/-- Python dict insert: a duplicate key keeps its original position and
takes the new value, a new key is appended at the end. -/
def insertKV (kvs : List (List Char × Json)) (k : List Char) (v : Json) :
    List (List Char × Json) :=
  if kvs.any (fun kv => kv.1 = k) then
    kvs.map (fun kv => if kv.1 = k then (k, v) else kv)
  else kvs ++ [(k, v)]

/-- Dict lookup (keys are unique after `insertKV`). -/
def jlookup (kvs : List (List Char × Json)) (k : List Char) : Option Json :=
  match kvs with
  | [] => none
  | kv :: t => if kv.1 = k then some kv.2 else jlookup t k

/-- JSON whitespace (the four characters accepted between tokens). -/
def jsonWs (c : Char) : Bool :=
  c = ' ' || c = '\t' || c = '\n' || c = '\r'

/-- Value of one hexadecimal digit. -/
def hexVal (c : Char) : Option Nat :=
  if '0' ≤ c ∧ c ≤ '9' then some (c.toNat - 48)
  else if 'a' ≤ c ∧ c ≤ 'f' then some (c.toNat - 87)
  else if 'A' ≤ c ∧ c ≤ 'F' then some (c.toNat - 55)
  else none

/-- Value of a four-digit hexadecimal escape. -/
def hex4 (a b c d : Char) : Option Nat :=
  match hexVal a, hexVal b, hexVal c, hexVal d with
  | some x, some y, some z, some w => some (((x * 16 + y) * 16 + z) * 16 + w)
  | _, _, _, _ => none

/-- Body of a JSON string after the opening quote, returning the content
and the remainder after the closing quote.  Strict mode as in
`json.loads`: raw control characters are rejected; escapes cover the eight
simple ones and four-digit Unicode escapes with surrogate-pair
combination.  An unpaired surrogate escape, which Python tolerates, is
rejected here — it has no `Char` counterpart; no payload in this
development contains one. -/
def parseStrBody : List Char → Option (List Char × List Char)
  | [] => none
  | '"' :: t => some ([], t)
  | '\\' :: t =>
    match t with
    | '"' :: r => (parseStrBody r).map (fun p => ('"' :: p.1, p.2))
    | '\\' :: r => (parseStrBody r).map (fun p => ('\\' :: p.1, p.2))
    | '/' :: r => (parseStrBody r).map (fun p => ('/' :: p.1, p.2))
    | 'b' :: r => (parseStrBody r).map (fun p => ('\x08' :: p.1, p.2))
    | 'f' :: r => (parseStrBody r).map (fun p => ('\x0c' :: p.1, p.2))
    | 'n' :: r => (parseStrBody r).map (fun p => ('\n' :: p.1, p.2))
    | 'r' :: r => (parseStrBody r).map (fun p => ('\r' :: p.1, p.2))
    | 't' :: r => (parseStrBody r).map (fun p => ('\t' :: p.1, p.2))
    | 'u' :: a :: b :: c :: d :: r =>
      match hex4 a b c d with
      | none => none
      | some code =>
        if 55296 ≤ code ∧ code ≤ 56319 then
          match r with
          | '\\' :: 'u' :: a2 :: b2 :: c2 :: d2 :: r2 =>
            match hex4 a2 b2 c2 d2 with
            | none => none
            | some lo =>
              if 56320 ≤ lo ∧ lo ≤ 57343 then
                (parseStrBody r2).map (fun p =>
                  (Char.ofNat (65536 + (code - 55296) * 1024 + (lo - 56320)) :: p.1, p.2))
              else none
          | _ => none
        else if 56320 ≤ code ∧ code ≤ 57343 then none
        else (parseStrBody r).map (fun p => (Char.ofNat code :: p.1, p.2))
    | _ => none
  | c :: t =>
    if c.toNat < 32 then none
    else (parseStrBody t).map (fun p => (c :: p.1, p.2))

/-- Decimal digit test. -/
def isDigitChar (c : Char) : Bool := '0' ≤ c && c ≤ '9'

/-- Integer part of a JSON number: a single zero, or a nonzero digit
followed by digits (no leading zeros). -/
def parseIntDigits : List Char → Option (List Char × List Char)
  | [] => none
  | c :: t =>
    if c = '0' then some ([c], t)
    else if '1' ≤ c ∧ c ≤ '9' then
      some (c :: t.takeWhile isDigitChar, t.dropWhile isDigitChar)
    else none

/-- Optional fraction part of a JSON number. -/
def parseFrac : List Char → Option (List Char × List Char)
  | '.' :: t =>
    match t.takeWhile isDigitChar with
    | [] => none
    | ds => some ('.' :: ds, t.dropWhile isDigitChar)
  | cs => some ([], cs)

/-- Optional exponent part of a JSON number. -/
def parseExp : List Char → Option (List Char × List Char)
  | [] => some ([], [])
  | e :: t =>
    if e = 'e' ∨ e = 'E' then
      match t with
      | '+' :: t2 =>
        match t2.takeWhile isDigitChar with
        | [] => none
        | ds => some (e :: '+' :: ds, t2.dropWhile isDigitChar)
      | '-' :: t2 =>
        match t2.takeWhile isDigitChar with
        | [] => none
        | ds => some (e :: '-' :: ds, t2.dropWhile isDigitChar)
      | t2 =>
        match t2.takeWhile isDigitChar with
        | [] => none
        | ds => some (e :: ds, t2.dropWhile isDigitChar)
    else some ([], e :: t)

/-- The Infinity keyword (a Python `json` extension). -/
def infLit : List Char := "Infinity".data

/-- The NaN keyword (a Python `json` extension). -/
def nanLit : List Char := "NaN".data

/-- The true keyword. -/
def kwTrue : List Char := "true".data

/-- The false keyword. -/
def kwFalse : List Char := "false".data

/-- The null keyword. -/
def kwNull : List Char := "null".data

/-- A JSON number (or signed Infinity), returned as its lexeme. -/
def parseNum (cs : List Char) : Option (List Char × List Char) :=
  match cs with
  | '-' :: t =>
    match matchLit infLit t with
    | some r => some ('-' :: infLit, r)
    | none =>
      match parseIntDigits t with
      | none => none
      | some (ip, r1) =>
        match parseFrac r1 with
        | none => none
        | some (fp, r2) =>
          match parseExp r2 with
          | none => none
          | some (ep, r3) => some ('-' :: (ip ++ fp ++ ep), r3)
  | _ =>
    match parseIntDigits cs with
    | none => none
    | some (ip, r1) =>
      match parseFrac r1 with
      | none => none
      | some (fp, r2) =>
        match parseExp r2 with
        | none => none
        | some (ep, r3) => some (ip ++ fp ++ ep, r3)

mutual

/-- One JSON value with leading whitespace skipped, returning the value
and the remainder.  The fuel bounds recursion depth; the top level
supplies more fuel than the input length, which suffices because every
recursive call sits behind at least one consumed character. -/
def parseVal : Nat → List Char → Option (Json × List Char)
  | 0, _ => none
  | fuel + 1, cs0 =>
    match cs0.dropWhile jsonWs with
    | [] => none
    | '\x7b' :: t =>
      match t.dropWhile jsonWs with
      | '\x7d' :: r => some (.jobj [], r)
      | _ =>
        match parseMembers fuel [] t with
        | none => none
        | some (kvs, r) => some (.jobj kvs, r)
    | '[' :: t =>
      match t.dropWhile jsonWs with
      | ']' :: r => some (.jarr [], r)
      | _ =>
        match parseElems fuel [] t with
        | none => none
        | some (xs, r) => some (.jarr xs, r)
    | '"' :: t =>
      match parseStrBody t with
      | none => none
      | some (s, r) => some (.jstr s, r)
    | c :: t =>
      match matchLit kwTrue (c :: t) with
      | some r => some (.jbool true, r)
      | none =>
        match matchLit kwFalse (c :: t) with
        | some r => some (.jbool false, r)
        | none =>
          match matchLit kwNull (c :: t) with
          | some r => some (.jnull, r)
          | none =>
            match matchLit nanLit (c :: t) with
            | some r => some (.jnum nanLit, r)
            | none =>
              match matchLit infLit (c :: t) with
              | some r => some (.jnum infLit, r)
              | none =>
                match parseNum (c :: t) with
                | none => none
                | some (lex, r) => some (.jnum lex, r)

/-- Members of a nonempty JSON object, after the opening brace or a comma,
accumulating into the Python dict `acc`. -/
def parseMembers : Nat → List (List Char × Json) → List Char →
    Option (List (List Char × Json) × List Char)
  | 0, _, _ => none
  | fuel + 1, acc, cs =>
    match cs.dropWhile jsonWs with
    | '"' :: t =>
      match parseStrBody t with
      | none => none
      | some (k, r1) =>
        match r1.dropWhile jsonWs with
        | ':' :: r2 =>
          match parseVal fuel r2 with
          | none => none
          | some (v, r3) =>
            match r3.dropWhile jsonWs with
            | ',' :: r4 => parseMembers fuel (insertKV acc k v) r4
            | '\x7d' :: r4 => some (insertKV acc k v, r4)
            | _ => none
        | _ => none
    | _ => none

/-- Elements of a nonempty JSON array. -/
def parseElems : Nat → List Json → List Char → Option (List Json × List Char)
  | 0, _, _ => none
  | fuel + 1, acc, cs =>
    match parseVal fuel cs with
    | none => none
    | some (v, r1) =>
      match r1.dropWhile jsonWs with
      | ',' :: r2 => parseElems fuel (acc ++ [v]) r2
      | ']' :: r2 => some (acc ++ [v], r2)
      | _ => none

end

/-- `json.loads`: parse one value and require only trailing whitespace.
A parse that yields the JSON null is returned as a present `jnull`; the
Python function returns the (falsy) `None` object there, which every
caller in the audited code treats identically to a parse failure. -/
def json_loads (cs : List Char) : Option Json :=
  match parseVal (cs.length + 1) cs with
  | none => none
  | some (j, rest) =>
    match rest.dropWhile jsonWs with
    | [] => some j
    | _ => none

/-- Python slice `[1 : -1]`. -/
def slice1m1 (cs : List Char) : List Char := (cs.drop 1).dropLast

/-- Python `str.endswith`. -/
def hasSuf (pat cs : List Char) : Bool := hasPre pat.reverse cs.reverse

/-- The doubled opening braces. -/
def dbraceO : List Char := "\x7b\x7b".data

/-- The doubled closing braces. -/
def dbraceC : List Char := "\x7d\x7d".data

/-- `try_json` from `run_audit.py`: try `json.loads` on the payload (an
empty candidate is skipped); on failure, when the stripped payload starts
with doubled opening braces and ends with doubled closing braces, strip
one layer (slice `[1:-1]` of the stripped payload) and retry once. -/
def try_json (s : List Char) : Option Json :=
  match (if s = [] then none else json_loads s) with
  | some j => some j
  | none =>
    let t := pyStripChars s
    if hasPre dbraceO t && hasSuf dbraceC t then
      let cand := slice1m1 t
      if cand = [] then none else json_loads cand
    else none

/-- The key of a sources entry's text. -/
def contentKey : List Char := "content".data

/-- The key of the multi-file mapping. -/
def sourcesKey : List Char := "sources".data

/-- The default fallback contract name. -/
def defaultName : List Char := "Contract".data

/-- The fallback unit name suffix. -/
def solSuffix : List Char := ".sol".data

/-- Fallback unit base name,
`(item.get("ContractName") or "Contract").strip() or "Contract"`:
a missing or empty hint falls to the default, as does a hint that strips
to the empty string. -/
def fallbackName (hint : Option (List Char)) : List Char :=
  let base := match hint with
    | none => defaultName
    | some h => if h = [] then defaultName else h
  let s := pyStripChars base
  if s = [] then defaultName else s

/-- One `sources` entry: Python `meta.get("content", "")` requires `meta`
to be a dict (otherwise `AttributeError`), and the subsequent
`write_text(content)` requires the content to be a string (otherwise
`TypeError`); a missing key defaults to the empty string. -/
def unitOf (rel : List Char) (meta : Json) : Except Unit (List Char × List Char) :=
  match meta with
  | .jobj m =>
    match jlookup m contentKey with
    | some (.jstr s) => .ok (rel, s)
    | some _ => .error ()
    | none => .ok (rel, [])
  | _ => .error ()

/-- `expand_sources` from `run_audit.py`, modelling the returned unit list
of (relative path, content) pairs; a Python exception escaping the
function is `.error`, and the file-system materialization is a side
effect outside the value model.  An empty payload yields no units; a
parse (after the unwrap retry) to a dict containing the sources key
iterates `j["sources"].items()` — raising when that value is not a dict —
and otherwise one unit holds the raw payload under the fallback name. -/
def expand_sources (src : List Char) (hint : Option (List Char)) :
    Except Unit (List (List Char × List Char)) :=
  if src = [] then .ok []
  else
    match try_json src with
    | some (.jobj kvs) =>
      match jlookup kvs sourcesKey with
      | some (.jobj entries) => entries.mapM (fun kv => unitOf kv.1 kv.2)
      | some _ => .error ()
      | none => .ok [(fallbackName hint ++ solSuffix, src)]
    | _ => .ok [(fallbackName hint ++ solSuffix, src)]

/-- Wrap a payload in one extra pair of braces. -/
def wrapBraces (p : List Char) : List Char := '\x7b' :: (p ++ [ '\x7d' ])

/-- The text content of a well-shaped sources entry: the string under the
content key, or empty when the key is missing. -/
def contentOf (meta : Json) : List Char :=
  match meta with
  | .jobj m =>
    match jlookup m contentKey with
    | some (.jstr s) => s
    | _ => []
  | _ => []

/-- A sources entry value on which `expand_sources` cannot raise: a dict
whose content, when present, is a string. -/
def goodMetaB (meta : Json) : Bool :=
  match meta with
  | .jobj m =>
    match jlookup m contentKey with
    | some (.jstr _) => true
    | some _ => false
    | none => true
  | _ => false

/-- The parse outcome carries no dict with a sources key (so the
single-file fallback branch of `expand_sources` applies). -/
def noSourcesKeyB (j : Option Json) : Bool :=
  match j with
  | some (.jobj kvs) => (jlookup kvs sourcesKey).isNone
  | _ => true

/- ### Concrete instances used in witnesses -/

/-- A sample audited-contract address used in concrete instances. -/
def sampleAddr : List Char := "0xdeadbeef00000000000000000000000000000001".data

/-- Query used in the concrete C4 instance: the middle window raises, the
others deliver one Transfer log each. -/
def qWitFail : Nat → Nat → Except Unit (List Log) :=
  fun s _ => if s = 50000 then .error () else .ok [⟨s, s, [TRANSFER_TOPIC]⟩]

/-- A concrete Transfer log. -/
def logT : Log := ⟨5, 100, [TRANSFER_TOPIC]⟩

/-- A concrete Blacklisted log. -/
def logB : Log := ⟨6, 101, [BLACKLISTED_TOPIC, 7]⟩

/-- A concrete log with an unrecognised first topic. -/
def logX : Log := ⟨7, 102, [12345]⟩

/-- Query used in the concrete C5 instance: a single window delivering one
log of each of the three shapes. -/
def qWitKinds : Nat → Nat → Except Unit (List Log) :=
  fun s _ => if s = 0 then .ok [logT, logB, logX] else .error ()

/-- Concrete scanner input: an init declaration followed by lines
without the guard marker. -/
def initText : List Char := "function initialize() public\nno guard\nnothing\nx\ny".data

/-- First line of `initText`. -/
def initLine0 : List Char := "function initialize() public".data

/-- Concrete scanner input: a setter call with the guard marker on the
fourth line of its lookahead window. -/
def guard4Text : List Char := "updateOracle(x)\na\nb\nonlyOwner\nc".data

/-- Concrete scanner input: a setter call with the guard marker only on
the fifth line, outside the lookahead window. -/
def guard5Text : List Char := "updateOracle(x)\na\nb\nc\nonlyOwner".data

/-- First line of `guard5Text`. -/
def setterLine0 : List Char := "updateOracle(x)".data

/-- The first role-setter name, used in concrete instances. -/
def oracleName : List Char := "updateOracle".data

/-- The two-file sources payload of the round-trip property. -/
def payloadAB : List Char :=
  "\x7b\"sources\": \x7b\"A.sol\": \x7b\"content\": \"X\"\x7d, \"B.sol\": \x7b\"content\": \"Y\"\x7d\x7d\x7d".data

/-- `payloadAB` without its outer braces. -/
def payloadABMid : List Char :=
  "\"sources\": \x7b\"A.sol\": \x7b\"content\": \"X\"\x7d, \"B.sol\": \x7b\"content\": \"Y\"\x7d\x7d".data

/-- The plain-text payload of the round-trip property. -/
def plainPayload : List Char := "contract C \x7b\x7d".data

/-- The contract-name hint of the plain-text round trip. -/
def hintC : List Char := "C".data

/-- Unit name A.sol. -/
def nameASol : List Char := "A.sol".data

/-- Unit name B.sol. -/
def nameBSol : List Char := "B.sol".data

/-- Unit name C.sol. -/
def nameCSol : List Char := "C.sol".data

/-- Content X. -/
def txtX : List Char := "X".data

/-- Content Y. -/
def txtY : List Char := "Y".data

/-- A JSON object payload without a sources key. -/
def payloadObjA : List Char := "\x7b\"a\": 1\x7d".data

/-- A payload whose sources key holds a number instead of a mapping. -/
def payloadBadSources : List Char := "\x7b\"sources\": 3\x7d".data

/-- A payload with a sources entry whose value is a bare string. -/
def payloadStrMeta : List Char := "\x7b\"sources\": \x7b\"A.sol\": \"X\"\x7d\x7d".data

/-- A payload whose first sources entry lacks a content field. -/
def payloadMissingContent : List Char :=
  "\x7b\"sources\": \x7b\"A.sol\": \x7b\x7d, \"B.sol\": \x7b\"content\": \"Y\"\x7d\x7d\x7d".data

/-- A plain non-JSON payload. -/
def plainHello : List Char := "hello".data

/-- The parsed entries of `payloadAB`. -/
def entriesAB : List (List Char × Json) :=
  [ (nameASol, Json.jobj [ (contentKey, Json.jstr txtX) ]),
    (nameBSol, Json.jobj [ (contentKey, Json.jstr txtY) ]) ]

/-- The parsed top-level dict of `payloadAB`. -/
def kvsAB : List (List Char × Json) := [ (sourcesKey, Json.jobj entriesAB) ]

/-- The parsed entries of `payloadMissingContent`. -/
def entriesMissing : List (List Char × Json) :=
  [ (nameASol, Json.jobj []),
    (nameBSol, Json.jobj [ (contentKey, Json.jstr txtY) ]) ]

/-- The parsed top-level dict of `payloadMissingContent`. -/
def kvsMissing : List (List Char × Json) := [ (sourcesKey, Json.jobj entriesMissing) ]

/- ### Theorems -/

/-- The three signature hashes are pairwise distinct. -/
theorem topicsDistinct :
    TRANSFER_TOPIC ≠ BLACKLISTED_TOPIC ∧ TRANSFER_TOPIC ≠ UPGR_TOPIC
      ∧ BLACKLISTED_TOPIC ≠ UPGR_TOPIC := by
  refine ⟨?_, ?_, ?_⟩ <;> decide

/-- Folding the classification step over a log list whose logs all carry at
least one topic succeeds and appends, per kind, exactly the logs whose
first topic equals that kind's hash. -/
theorem foldlM_classify (ls : List Log) :
    ∀ r : ScanResult, (∀ l ∈ ls, l.topics ≠ []) →
      ls.foldlM classifyLog r = .ok
        { transfer := r.transfer ++ ls.filter isTransferLog,
          blacklisted := r.blacklisted ++ ls.filter isBlacklistedLog,
          upgraded := r.upgraded ++ ls.filter isUpgradedLog } := by
  induction ls with
  | nil => intro r h; simp [List.foldlM_nil]; rfl
  | cons l ls ih =>
    intro r h
    have hl : l.topics ≠ [] := h l (by simp)
    obtain ⟨t0, ts, ht⟩ : ∃ t0 ts, l.topics = t0 :: ts := by
      cases hlt : l.topics with
      | nil => exact absurd hlt hl
      | cons a b => exact ⟨a, b, rfl⟩
    have hrest : ∀ x ∈ ls, x.topics ≠ [] := fun x hx => h x (by simp [hx])
    by_cases h1 : t0 = TRANSFER_TOPIC
    · have e1 : isTransferLog l = true := by
        simp [isTransferLog, ht, h1]
      have e2 : isBlacklistedLog l = false := by
        simp [isBlacklistedLog, ht, h1]
        exact topicsDistinct.1
      have e3 : isUpgradedLog l = false := by
        simp [isUpgradedLog, ht, h1]
        exact topicsDistinct.2.1
      have hc : classifyLog r l = .ok { r with transfer := r.transfer ++ [l] } := by
        simp [classifyLog, ht, h1]
      rw [List.foldlM_cons, hc]
      show ls.foldlM classifyLog { r with transfer := r.transfer ++ [l] } = _
      rw [ih _ hrest]
      simp [List.filter_cons, e1, e2, e3, List.append_assoc]
    · by_cases h2 : t0 = BLACKLISTED_TOPIC
      · have e1 : isTransferLog l = false := by
          simp [isTransferLog, ht, h2]
          exact fun hh => topicsDistinct.1 hh.symm
        have e2 : isBlacklistedLog l = true := by
          simp [isBlacklistedLog, ht, h2]
        have e3 : isUpgradedLog l = false := by
          simp [isUpgradedLog, ht, h2]
          exact topicsDistinct.2.2
        have hc : classifyLog r l = .ok { r with blacklisted := r.blacklisted ++ [l] } := by
          have hn1 : BLACKLISTED_TOPIC ≠ TRANSFER_TOPIC := fun hh => topicsDistinct.1 hh.symm
          simp [classifyLog, ht, h1, h2, hn1]
        rw [List.foldlM_cons, hc]
        show ls.foldlM classifyLog { r with blacklisted := r.blacklisted ++ [l] } = _
        rw [ih _ hrest]
        simp [List.filter_cons, e1, e2, e3, List.append_assoc]
      · by_cases h3 : t0 = UPGR_TOPIC
        · have e1 : isTransferLog l = false := by
            simp [isTransferLog, ht, h3]
            exact fun hh => topicsDistinct.2.1 hh.symm
          have e2 : isBlacklistedLog l = false := by
            simp [isBlacklistedLog, ht, h3]
            exact fun hh => topicsDistinct.2.2 hh.symm
          have e3 : isUpgradedLog l = true := by
            simp [isUpgradedLog, ht, h3]
          have hc : classifyLog r l = .ok { r with upgraded := r.upgraded ++ [l] } := by
            have hn1 : UPGR_TOPIC ≠ TRANSFER_TOPIC := fun hh => topicsDistinct.2.1 hh.symm
            have hn2 : UPGR_TOPIC ≠ BLACKLISTED_TOPIC := fun hh => topicsDistinct.2.2 hh.symm
            simp [classifyLog, ht, h1, h2, h3, hn1, hn2]
          rw [List.foldlM_cons, hc]
          show ls.foldlM classifyLog { r with upgraded := r.upgraded ++ [l] } = _
          rw [ih _ hrest]
          simp [List.filter_cons, e1, e2, e3, List.append_assoc]
        · have e1 : isTransferLog l = false := by
            simp [isTransferLog, ht]; exact h1
          have e2 : isBlacklistedLog l = false := by
            simp [isBlacklistedLog, ht]; exact h2
          have e3 : isUpgradedLog l = false := by
            simp [isUpgradedLog, ht]; exact h3
          have hc : classifyLog r l = .ok r := by
            simp [classifyLog, ht, h1, h2, h3]
          rw [List.foldlM_cons, hc]
          show ls.foldlM classifyLog r = _
          rw [ih _ hrest]
          simp [List.filter_cons, e1, e2, e3]

/-- Folding the window loop over any window list, under the no-empty-topics
condition, succeeds and appends per kind exactly the matching logs of all
successful windows, in window order. -/
theorem foldlM_windows (query : Nat → Nat → Except Unit (List Log))
    (ws : List (Nat × Nat)) :
    ∀ r : ScanResult, wellTopicsB query ws = true →
      ws.foldlM (processWindow query) r = .ok
        { transfer := r.transfer ++ (returnedLogs query ws).filter isTransferLog,
          blacklisted := r.blacklisted ++ (returnedLogs query ws).filter isBlacklistedLog,
          upgraded := r.upgraded ++ (returnedLogs query ws).filter isUpgradedLog } := by
  induction ws with
  | nil => intro r h; simp [List.foldlM_nil, returnedLogs]; rfl
  | cons w ws ih =>
    intro r h
    rw [wellTopicsB, List.all_cons, Bool.and_eq_true] at h
    obtain ⟨hw, hws⟩ := h
    have hflat : returnedLogs query (w :: ws) = okLogsOf query w ++ returnedLogs query ws := by
      simp [returnedLogs, List.flatMap_cons]
    cases hq : query w.1 w.2 with
    | error e =>
      have hp : processWindow query r w = .ok r := by simp [processWindow, hq]
      rw [List.foldlM_cons, hp]
      show ws.foldlM (processWindow query) r = _
      rw [ih _ hws]
      simp [hflat, okLogsOf, hq]
    | ok ls =>
      have hall : ∀ l ∈ ls, l.topics ≠ [] := by
        rw [hq] at hw
        intro l hlmem
        have := List.all_eq_true.mp hw l hlmem
        simpa [List.isEmpty_eq_false] using this
      have hp : processWindow query r w = ls.foldlM classifyLog r := by
        simp [processWindow, hq]
      rw [List.foldlM_cons, hp, foldlM_classify ls r hall]
      show ws.foldlM (processWindow query) _ = _
      rw [ih _ hws]
      simp [hflat, okLogsOf, hq, List.filter_append, List.append_assoc]

/-- Characterization of a full `scan_logs` run: under the no-empty-topics
condition it succeeds, and each kind's list is exactly the filter of all
delivered logs by first-topic equality with that kind's hash. -/
theorem scan_logs_char (query : Nat → Nat → Except Unit (List Log))
    (fromB toB step : Nat)
    (h : wellTopicsB query (queryWindows fromB toB step) = true) :
    scan_logs query fromB toB step = .ok
      { transfer := (returnedLogs query (queryWindows fromB toB step)).filter isTransferLog,
        blacklisted := (returnedLogs query (queryWindows fromB toB step)).filter isBlacklistedLog,
        upgraded := (returnedLogs query (queryWindows fromB toB step)).filter isUpgradedLog } := by
  rw [scan_logs, foldlM_windows query _ _ h]
  simp

/-- A fuel step past the end of the range produces no window. -/
theorem queryWindowsAux_empty (toB step : Nat) :
    ∀ f start, toB + 1 ≤ start → queryWindowsAux toB step f start = [] := by
  intro f start h
  cases f with
  | zero => rfl
  | succ f => simp [queryWindowsAux, Nat.not_lt.mpr h]

/-- Structure of the generated window list: it starts at `start`, ends at
`toB`, windows are consecutive, and each window is nonempty with at most
`step` blocks. -/
theorem queryWindowsAux_spec (toB step : Nat) (hs : 0 < step) :
    ∀ f start, start ≤ toB → toB + 1 - start ≤ f →
      (∃ e rest, queryWindowsAux toB step f start = (start, e) :: rest)
      ∧ (∀ w, (queryWindowsAux toB step f start).getLast? = some w → w.2 = toB)
      ∧ List.Chain' (fun a b => b.1 = a.2 + 1) (queryWindowsAux toB step f start)
      ∧ (∀ w ∈ queryWindowsAux toB step f start, w.1 ≤ w.2 ∧ w.2 + 1 - w.1 ≤ step) := by
  intro f
  induction f with
  | zero => intro start h1 h2; omega
  | succ f ih =>
    intro start h1 h2
    have hlt : start < toB + 1 := by omega
    rw [queryWindowsAux, if_pos hlt]
    by_cases hc : start + step ≤ toB
    · have he : min toB (start + step - 1) = start + step - 1 := by
        apply Nat.min_eq_right; omega
      have hrec := ih (start + step) hc (by omega)
      obtain ⟨⟨e2, rest2, heq2⟩, hlast2, hchain2, hbound2⟩ := hrec
      rw [he]
      refine ⟨⟨start + step - 1, _, rfl⟩, ?_, ?_, ?_⟩
      · intro w hw
        rw [heq2, List.getLast?_cons_cons] at hw
        exact hlast2 w (by rw [heq2]; exact hw)
      · rw [heq2, List.chain'_cons]
        constructor
        · show start + step = (start + step - 1) + 1
          omega
        · rw [← heq2]; exact hchain2
      · intro w hw
        rcases List.mem_cons.mp hw with hw | hw
        · subst hw; constructor <;> simp <;> omega
        · exact hbound2 w hw
    · have he : min toB (start + step - 1) = toB := by
        apply Nat.min_eq_left; omega
      have hempty : queryWindowsAux toB step f (start + step) = [] :=
        queryWindowsAux_empty toB step f (start + step) (by omega)
      rw [he, hempty]
      refine ⟨⟨toB, [], rfl⟩, ?_, ?_, ?_⟩
      · intro w hw
        simp at hw
        rw [← hw]
      · simp
      · intro w hw
        simp at hw
        rw [hw]
        constructor <;> simp <;> omega

/-- Claim C4: `scan_logs` partitions the inclusive range
`[from_block, to_block]` into consecutive ascending windows of at most
`step` blocks, one query each; with `from_block = 0`,
`to_block = 149999`, `step = 50000` it issues exactly the three windows
`(0, 49999), (50000, 99999), (100000, 149999)`; and when the query of one
window fails, that window delivers no logs while the result still holds
exactly the classified logs of every window, so all other windows' events
are retained. -/
theorem claimC4 :
    (∀ fromB toB step : Nat, 0 < step → fromB ≤ toB →
      (∃ e rest, queryWindows fromB toB step = (fromB, e) :: rest)
      ∧ (∀ w, (queryWindows fromB toB step).getLast? = some w → w.2 = toB)
      ∧ List.Chain' (fun a b => b.1 = a.2 + 1) (queryWindows fromB toB step)
      ∧ (∀ w ∈ queryWindows fromB toB step, w.1 ≤ w.2 ∧ w.2 + 1 - w.1 ≤ step))
    ∧ queryWindows 0 149999 50000 = [(0, 49999), (50000, 99999), (100000, 149999)]
    ∧ (∀ (q : Nat → Nat → Except Unit (List Log)) (fromB toB step : Nat) (w : Nat × Nat),
      w ∈ queryWindows fromB toB step →
      q w.1 w.2 = .error () →
      wellTopicsB q (queryWindows fromB toB step) = true →
      scan_logs q fromB toB step = .ok
        { transfer := (returnedLogs q (queryWindows fromB toB step)).filter isTransferLog,
          blacklisted := (returnedLogs q (queryWindows fromB toB step)).filter isBlacklistedLog,
          upgraded := (returnedLogs q (queryWindows fromB toB step)).filter isUpgradedLog }
      ∧ okLogsOf q w = []) := by
  refine ⟨?_, by decide, ?_⟩
  · intro fromB toB step hs hle
    exact queryWindowsAux_spec toB step hs (toB + 1 - fromB) fromB hle (le_refl _)
  · intro q fromB toB step w hmem herr hwell
    refine ⟨scan_logs_char q fromB toB step hwell, ?_⟩
    simp [okLogsOf, herr]

/-- Witness for C4: the three-window scenario with the middle window
failing. -/
theorem claimC4_witness :
    ((50000, 99999) ∈ queryWindows 0 149999 50000
      ∧ wellTopicsB qWitFail (queryWindows 0 149999 50000) = true)
    ∧ (scan_logs qWitFail 0 149999 50000 = .ok
        { transfer := (returnedLogs qWitFail (queryWindows 0 149999 50000)).filter isTransferLog,
          blacklisted := (returnedLogs qWitFail (queryWindows 0 149999 50000)).filter isBlacklistedLog,
          upgraded := (returnedLogs qWitFail (queryWindows 0 149999 50000)).filter isUpgradedLog }
      ∧ okLogsOf qWitFail (50000, 99999) = []) :=
  ⟨⟨by decide, by decide⟩,
    claimC4.2.2 qWitFail 0 149999 50000 (50000, 99999) (by decide) rfl (by decide)⟩

/-- Claim C5: on a successful run (no log lacks a first topic), each
retained log appears under exactly one kind, membership in a kind's list
is determined solely by equality of the log's first topic with that kind's
precomputed hash, and a delivered log matching none of the three hashes
appears under no kind. -/
theorem claimC5 (q : Nat → Nat → Except Unit (List Log))
    (fromB toB step : Nat) (r : ScanResult)
    (hw : wellTopicsB q (queryWindows fromB toB step) = true)
    (hok : scan_logs q fromB toB step = .ok r) :
    r.transfer = (returnedLogs q (queryWindows fromB toB step)).filter isTransferLog
    ∧ r.blacklisted = (returnedLogs q (queryWindows fromB toB step)).filter isBlacklistedLog
    ∧ r.upgraded = (returnedLogs q (queryWindows fromB toB step)).filter isUpgradedLog
    ∧ (∀ l, l ∈ r.transfer → l ∉ r.blacklisted ∧ l ∉ r.upgraded)
    ∧ (∀ l, l ∈ r.blacklisted → l ∉ r.upgraded)
    ∧ (∀ l, l.topics.head? ≠ some TRANSFER_TOPIC →
        l.topics.head? ≠ some BLACKLISTED_TOPIC →
        l.topics.head? ≠ some UPGR_TOPIC →
        l ∉ r.transfer ∧ l ∉ r.blacklisted ∧ l ∉ r.upgraded) := by
  have hchar := scan_logs_char q fromB toB step hw
  rw [hok] at hchar
  have hr := Except.ok.inj hchar
  have h1 : r.transfer = (returnedLogs q (queryWindows fromB toB step)).filter isTransferLog := by
    rw [hr]
  have h2 : r.blacklisted = (returnedLogs q (queryWindows fromB toB step)).filter isBlacklistedLog := by
    rw [hr]
  have h3 : r.upgraded = (returnedLogs q (queryWindows fromB toB step)).filter isUpgradedLog := by
    rw [hr]
  refine ⟨h1, h2, h3, ?_, ?_, ?_⟩
  · intro l hl
    rw [h1] at hl
    have hT : isTransferLog l = true := (List.mem_filter.mp hl).2
    have hhead : l.topics.head? = some TRANSFER_TOPIC := by
      simpa [isTransferLog] using hT
    constructor
    · rw [h2]
      intro hmem
      have hB : isBlacklistedLog l = true := (List.mem_filter.mp hmem).2
      have : l.topics.head? = some BLACKLISTED_TOPIC := by
        simpa [isBlacklistedLog] using hB
      rw [hhead] at this
      exact topicsDistinct.1 (Option.some.inj this)
    · rw [h3]
      intro hmem
      have hU : isUpgradedLog l = true := (List.mem_filter.mp hmem).2
      have : l.topics.head? = some UPGR_TOPIC := by
        simpa [isUpgradedLog] using hU
      rw [hhead] at this
      exact topicsDistinct.2.1 (Option.some.inj this)
  · intro l hl
    rw [h2] at hl
    have hB : isBlacklistedLog l = true := (List.mem_filter.mp hl).2
    have hhead : l.topics.head? = some BLACKLISTED_TOPIC := by
      simpa [isBlacklistedLog] using hB
    rw [h3]
    intro hmem
    have hU : isUpgradedLog l = true := (List.mem_filter.mp hmem).2
    have : l.topics.head? = some UPGR_TOPIC := by
      simpa [isUpgradedLog] using hU
    rw [hhead] at this
    exact topicsDistinct.2.2 (Option.some.inj this)
  · intro l hT hB hU
    refine ⟨?_, ?_, ?_⟩
    · rw [h1]
      intro hmem
      have h := (List.mem_filter.mp hmem).2
      exact hT (by simpa [isTransferLog] using h)
    · rw [h2]
      intro hmem
      have h := (List.mem_filter.mp hmem).2
      exact hB (by simpa [isBlacklistedLog] using h)
    · rw [h3]
      intro hmem
      have h := (List.mem_filter.mp hmem).2
      exact hU (by simpa [isUpgradedLog] using h)

/-- Witness for C5 at a single concrete window. -/
theorem claimC5_witness :
    (wellTopicsB qWitKinds (queryWindows 0 9 50000) = true
      ∧ scan_logs qWitKinds 0 9 50000 = .ok ⟨[logT], [logB], []⟩)
    ∧ (⟨[logT], [logB], []⟩ : ScanResult).transfer =
        (returnedLogs qWitKinds (queryWindows 0 9 50000)).filter isTransferLog :=
  ⟨⟨by decide, by rfl⟩,
    (claimC5 qWitKinds 0 9 50000 ⟨[logT], [logB], []⟩ (by decide) (by rfl)).1⟩

/-- Claim C1: for every successful storage read returning exactly 32 bytes,
`detect_proxy_and_impl` returns the low-order 20 bytes of the word as a
checksummed address, including for the all-zero word (the zero address is a
present result); a read of any other length, an empty read, and a failing
read all yield `none`. -/
theorem claimC1 :
    (∀ w : List Nat, w.length = 32 →
      detect_proxy_and_impl (.ok w) = some (to_checksum_address (w.drop 12)))
    ∧ detect_proxy_and_impl (.ok (List.replicate 32 0)) = some zeroAddressText
    ∧ (∀ w : List Nat, w.length ≠ 32 → detect_proxy_and_impl (.ok w) = none)
    ∧ detect_proxy_and_impl (.error ()) = none := by
  refine ⟨?_, by decide, ?_, rfl⟩
  · intro w hw
    have hne : w ≠ [] := by
      intro h; rw [h] at hw; simp at hw
    simp [detect_proxy_and_impl, hne, hw]
  · intro w hw
    simp [detect_proxy_and_impl, hw]

/-- Witness for C1 at a concrete 32-byte word. -/
theorem claimC1_witness :
    (List.replicate 32 7 : List Nat).length = 32 ∧
      detect_proxy_and_impl (.ok (List.replicate 32 7)) =
        some (to_checksum_address ((List.replicate 32 7).drop 12)) :=
  ⟨by decide, claimC1.1 (List.replicate 32 7) (by decide)⟩

/-- Claim C9: the source-fetch target is the resolver's result whenever it
is present (a present result is a nonempty string, hence truthy), and the
contract's own address only when resolution is absent; in particular an
all-zero slot word makes the pipeline fetch source for the zero address
instead of the contract itself. -/
theorem claimC9 :
    (∀ read addr impl, detect_proxy_and_impl read = some impl →
      fetchTarget read addr = impl)
    ∧ (∀ read addr, detect_proxy_and_impl read = none →
      fetchTarget read addr = addr)
    ∧ (∀ addr, fetchTarget (.ok (List.replicate 32 0)) addr = zeroAddressText) := by
  refine ⟨?_, ?_, ?_⟩
  · intro read addr impl h
    have hne : impl ≠ [] := by
      match read, h with
      | .ok raw, h =>
        by_cases hc : raw ≠ [] ∧ raw.length = 32
        · simp [detect_proxy_and_impl, hc] at h
          rw [← h]
          simp [to_checksum_address]
        · simp [detect_proxy_and_impl, hc] at h
    simp [fetchTarget, h, hne]
  · intro read addr h
    simp [fetchTarget, h]
  · intro addr
    have h : detect_proxy_and_impl (.ok (List.replicate 32 0)) = some zeroAddressText := by
      decide
    have hne : ¬ (zeroAddressText = []) := by decide
    unfold fetchTarget
    rw [h]
    simp [hne]

/-- Witness for C9 at a concrete slot word and address. -/
theorem claimC9_witness :
    detect_proxy_and_impl (.ok (List.replicate 32 1)) =
        some (to_checksum_address (List.replicate 20 1)) ∧
      fetchTarget (.ok (List.replicate 32 1)) sampleAddr =
        to_checksum_address (List.replicate 20 1) :=
  ⟨by decide, claimC9.1 _ sampleAddr _ (by decide)⟩

/-- Claim C10: an explicitly supplied block bound equal to 0 is treated as
if it were absent; with the chain past block 200000, an explicit from-block
of 0 becomes `latest - 200000`, which is nonzero, so the scan can never
actually start at an explicit block 0. -/
theorem claimC10 :
    (∀ latest, resolvedFromBlock (some 0) latest = resolvedFromBlock none latest
      ∧ resolvedToBlock (some 0) latest = resolvedToBlock none latest)
    ∧ (∀ latest, resolvedFromBlock (some 0) latest = max 0 (latest - 200000)
      ∧ resolvedToBlock (some 0) latest = latest)
    ∧ (∀ latest : Int, 200000 < latest →
      resolvedFromBlock (some 0) latest = latest - 200000
      ∧ resolvedFromBlock (some 0) latest ≠ 0) := by
  refine ⟨fun latest => ⟨rfl, rfl⟩, fun latest => ⟨rfl, rfl⟩, ?_⟩
  intro latest h
  constructor
  · simp [resolvedFromBlock]
    omega
  · simp [resolvedFromBlock]
    omega

/-- Witness for C10 at a concrete chain height above 200000. -/
theorem claimC10_witness :
    (200000 : Int) < 300000 ∧
      resolvedFromBlock (some 0) 300000 = 300000 - 200000
      ∧ resolvedFromBlock (some 0) 300000 ≠ 0 :=
  ⟨by decide, claimC10.2.2 300000 (by decide)⟩

/- Claims C2 and C3: list-membership characterizations of the scanner. -/

/-- Membership in `enumFrom` is indexed lookup shifted by the start. -/
theorem mem_enumFrom_iff {α : Type} (i : Nat) (a : α) :
    ∀ (l : List α) (n : Nat), (i, a) ∈ l.enumFrom n ↔ n ≤ i ∧ l[i - n]? = some a := by
  intro l
  induction l with
  | nil => intro n; simp
  | cons x t ih =>
    intro n
    rw [List.enumFrom_cons, List.mem_cons]
    constructor
    · rintro (h | h)
      · rw [Prod.mk.injEq] at h
        obtain ⟨h1, h2⟩ := h
        subst h1
        subst h2
        simp
      · obtain ⟨h1, h2⟩ := (ih (n + 1)).mp h
        refine ⟨by omega, ?_⟩
        have he : i - n = (i - (n + 1)) + 1 := by omega
        rw [he, List.getElem?_cons_succ]
        exact h2
    · rintro ⟨h1, h2⟩
      by_cases he : i = n
      · subst he
        simp only [Nat.sub_self, List.getElem?_cons_zero, Option.some.injEq] at h2
        left
        rw [← h2]
      · right
        apply (ih (n + 1)).mpr
        refine ⟨by omega, ?_⟩
        have hd : i - n = (i - (n + 1)) + 1 := by omega
        rw [hd, List.getElem?_cons_succ] at h2
        exact h2

/-- Membership in `enum` is indexed lookup. -/
theorem mem_enum_iff {α : Type} (i : Nat) (a : α) (l : List α) :
    (i, a) ∈ l.enum ↔ l[i]? = some a := by
  rw [show l.enum = l.enumFrom 0 from rfl, mem_enumFrom_iff]
  simp

/-- A head match survives appending on the right. -/
theorem matchLit_isSome_append (pat : List Char) :
    ∀ a b : List Char, (matchLit pat a).isSome = true →
      (matchLit pat (a ++ b)).isSome = true := by
  induction pat with
  | nil => intro a b _; simp [matchLit]
  | cons p ps ih =>
    intro a b h
    cases a with
    | nil => simp [matchLit] at h
    | cons c t =>
      rw [List.cons_append]
      by_cases hc : c = p
      · simp only [matchLit, if_pos hc] at h ⊢
        exact ih t b h
      · simp only [matchLit, if_neg hc] at h
        simp at h

/-- The empty pattern occurs in every text. -/
theorem isSubstr_nil_pat : ∀ b : List Char, isSubstr [] b = true := by
  intro b
  cases b <;> simp [isSubstr, hasPre, matchLit]

/-- A substring occurrence survives appending on the right. -/
theorem isSubstr_append_left (pat : List Char) :
    ∀ a b : List Char, isSubstr pat a = true → isSubstr pat (a ++ b) = true := by
  intro a
  induction a with
  | nil =>
    intro b h
    simp only [isSubstr, List.isEmpty_iff] at h
    subst h
    simpa using isSubstr_nil_pat b
  | cons c t ih =>
    intro b h
    rw [List.cons_append]
    rw [isSubstr, Bool.or_eq_true] at h ⊢
    rcases h with h | h
    · left
      rw [← List.cons_append]
      exact matchLit_isSome_append pat (c :: t) b h
    · right
      exact ih b h

/-- A substring occurrence survives prepending on the left. -/
theorem isSubstr_append_right (pat : List Char) :
    ∀ a b : List Char, isSubstr pat b = true → isSubstr pat (a ++ b) = true := by
  intro a
  induction a with
  | nil => intro b h; simpa using h
  | cons c t ih =>
    intro b h
    rw [List.cons_append, isSubstr, Bool.or_eq_true]
    right
    exact ih b h

/-- The guard marker in the first window line is in the joined window. -/
theorem hasOwner_joinNL_head (x : List Char) (t : List (List Char))
    (h : hasOwner x = true) : hasOwner (joinNL (x :: t)) = true := by
  cases t with
  | nil => simpa [joinNL] using h
  | cons y t2 =>
    show isSubstr ownerTok (x ++ '\n' :: joinNL (y :: t2)) = true
    exact isSubstr_append_left ownerTok x _ h

/-- The guard marker in the second window line is in the joined window. -/
theorem hasOwner_joinNL_second (x y : List Char) (t : List (List Char))
    (h : hasOwner y = true) : hasOwner (joinNL (x :: y :: t)) = true := by
  have h1 : hasOwner (joinNL (y :: t)) = true := hasOwner_joinNL_head y t h
  show isSubstr ownerTok (x ++ '\n' :: joinNL (y :: t)) = true
  apply isSubstr_append_right
  rw [isSubstr, Bool.or_eq_true]
  right
  exact h1

/-- A successful indexed lookup exposes the drop at that index. -/
theorem drop_eq_cons_of_getElem {α : Type} :
    ∀ (l : List α) (k : Nat) (a : α), l[k]? = some a →
      l.drop k = a :: l.drop (k + 1) := by
  intro l
  induction l with
  | nil => intro k a h; simp at h
  | cons x t ih =>
    intro k a h
    cases k with
    | zero =>
      simp only [List.getElem?_cons_zero, Option.some.injEq] at h
      subst h
      simp
    | succ k =>
      rw [List.getElem?_cons_succ] at h
      rw [List.drop_succ_cons, List.drop_succ_cons, ih k a h]

/-- Characterization of `init_functions` entries. -/
theorem mem_initEntries_iff (lines : List (List Char)) (j : Nat) (s : List Char) :
    (j, s) ∈ initEntries lines ↔
      ∃ k line, lines[k]? = some line ∧ matchInitLine line = true
        ∧ j = k + 1 ∧ s = pyStripChars line := by
  rw [initEntries, List.mem_filterMap]
  constructor
  · rintro ⟨⟨k, line⟩, hmem, hf⟩
    rw [mem_enum_iff] at hmem
    simp only [Option.ite_none_right_eq_some, Option.some.injEq, Prod.mk.injEq] at hf
    obtain ⟨hc, h1, h2⟩ := hf
    exact ⟨k, line, hmem, hc, h1.symm, h2.symm⟩
  · rintro ⟨k, line, hget, hc, hj, hs⟩
    refine ⟨(k, line), (mem_enum_iff k line lines).mpr hget, ?_⟩
    simp only [Option.ite_none_right_eq_some, Option.some.injEq, Prod.mk.injEq]
    exact ⟨hc, hj.symm, hs.symm⟩

/-- Characterization of `unprotected_inits` entries. -/
theorem mem_unprotInitEntries_iff (lines : List (List Char)) (j : Nat) (s : List Char) :
    (j, s) ∈ unprotInitEntries lines ↔
      ∃ k line, lines[k]? = some line ∧ matchInitLine line = true
        ∧ hasOwner line = false ∧ hasOwner (ctxWindow lines k) = false
        ∧ j = k + 1 ∧ s = pyStripChars line := by
  rw [unprotInitEntries, List.mem_filterMap]
  constructor
  · rintro ⟨⟨k, line⟩, hmem, hf⟩
    rw [mem_enum_iff] at hmem
    simp only [Option.ite_none_right_eq_some, Option.some.injEq, Prod.mk.injEq,
      Bool.and_eq_true, Bool.not_eq_true'] at hf
    obtain ⟨⟨⟨hc, ho1⟩, ho2⟩, h1, h2⟩ := hf
    exact ⟨k, line, hmem, hc, ho1, ho2, h1.symm, h2.symm⟩
  · rintro ⟨k, line, hget, hc, ho1, ho2, hj, hs⟩
    refine ⟨(k, line), (mem_enum_iff k line lines).mpr hget, ?_⟩
    simp only [Option.ite_none_right_eq_some, Option.some.injEq, Prod.mk.injEq,
      Bool.and_eq_true, Bool.not_eq_true']
    exact ⟨⟨⟨hc, ho1⟩, ho2⟩, hj.symm, hs.symm⟩

/-- Characterization of `unprotected_role_setters` entries. -/
theorem mem_setterEntries_iff (lines : List (List Char)) (j : Nat) (s : List Char) :
    (j, s) ∈ setterEntries lines ↔
      ∃ k line name, lines[k]? = some line ∧ name ∈ ROLE_SETTERS
        ∧ reCallName name line = true ∧ hasOwner (ctxWindow lines k) = false
        ∧ j = k + 1 ∧ s = pyStripChars line := by
  rw [setterEntries, List.mem_flatMap]
  constructor
  · rintro ⟨⟨k, line⟩, hmem, hin⟩
    rw [mem_enum_iff] at hmem
    rw [List.mem_filterMap] at hin
    obtain ⟨name, hnmem, hf⟩ := hin
    simp only [Option.ite_none_right_eq_some, Option.some.injEq, Prod.mk.injEq,
      Bool.and_eq_true, Bool.not_eq_true'] at hf
    obtain ⟨⟨hr, ho⟩, h1, h2⟩ := hf
    exact ⟨k, line, name, hmem, hnmem, hr, ho, h1.symm, h2.symm⟩
  · rintro ⟨k, line, name, hget, hnmem, hr, ho, hj, hs⟩
    refine ⟨(k, line), (mem_enum_iff k line lines).mpr hget, ?_⟩
    rw [List.mem_filterMap]
    refine ⟨name, hnmem, ?_⟩
    simp only [Option.ite_none_right_eq_some, Option.some.injEq, Prod.mk.injEq,
      Bool.and_eq_true, Bool.not_eq_true']
    exact ⟨⟨hr, ho⟩, hj.symm, hs.symm⟩

/-- Claim C2: every line matching the init pattern is recorded in
`init_functions` (1-indexed, stripped); it is additionally recorded in
`unprotected_inits` exactly when the guard marker occurs neither in the
line itself nor anywhere in the window of the matched line plus the
following three lines; in particular a matched line immediately followed
by a line containing the guard marker is absent from
`unprotected_inits`. -/
theorem claimC2 (text : List Char) (k : Nat) (line : List Char)
    (hget : (splitlines text)[k]? = some line)
    (hm : matchInitLine line = true) :
    (k + 1, pyStripChars line) ∈ (grep_patterns text).init_functions
    ∧ ((k + 1, pyStripChars line) ∈ (grep_patterns text).unprotected_inits ↔
        (hasOwner line = false ∧ hasOwner (ctxWindow (splitlines text) k) = false))
    ∧ (∀ next, (splitlines text)[k + 1]? = some next → hasOwner next = true →
        (k + 1, pyStripChars line) ∉ (grep_patterns text).unprotected_inits) := by
  have hgrep1 : (grep_patterns text).init_functions = initEntries (splitlines text) := rfl
  have hgrep2 : (grep_patterns text).unprotected_inits = unprotInitEntries (splitlines text) := rfl
  refine ⟨?_, ?_, ?_⟩
  · rw [hgrep1, mem_initEntries_iff]
    exact ⟨k, line, hget, hm, rfl, rfl⟩
  · rw [hgrep2, mem_unprotInitEntries_iff]
    constructor
    · rintro ⟨k2, line2, hget2, hm2, ho1, ho2, hj, hs⟩
      have hk : k = k2 := by omega
      subst hk
      rw [hget] at hget2
      have hline : line = line2 := Option.some.inj hget2
      subst hline
      exact ⟨ho1, ho2⟩
    · rintro ⟨ho1, ho2⟩
      exact ⟨k, line, hget, hm, ho1, ho2, rfl, rfl⟩
  · intro next hnext howner hmem
    rw [hgrep2, mem_unprotInitEntries_iff] at hmem
    obtain ⟨k2, line2, hget2, hm2, ho1, ho2, hj, hs⟩ := hmem
    have hk : k = k2 := by omega
    subst hk
    have hdrop : (splitlines text).drop k = line :: (splitlines text).drop (k + 1) :=
      drop_eq_cons_of_getElem _ k line hget
    have hdrop2 : (splitlines text).drop (k + 1) = next :: (splitlines text).drop (k + 2) :=
      drop_eq_cons_of_getElem _ (k + 1) next hnext
    have hctx : ctxWindow (splitlines text) k =
        joinNL (line :: next :: ((splitlines text).drop (k + 2)).take 2) := by
      rw [ctxWindow, hdrop, hdrop2]
      rfl
    have htrue : hasOwner (ctxWindow (splitlines text) k) = true := by
      rw [hctx]
      exact hasOwner_joinNL_second line next _ howner
    rw [htrue] at ho2
    exact Bool.noConfusion ho2

/-- Witness for C2 at a concrete init declaration with no guard. -/
theorem claimC2_witness :
    ((splitlines initText)[0]? = some initLine0 ∧ matchInitLine initLine0 = true)
    ∧ (1, pyStripChars initLine0) ∈ (grep_patterns initText).init_functions :=
  ⟨⟨by decide, by decide⟩, (claimC2 initText 0 initLine0 (by decide) (by decide)).1⟩

/-- Claim C3: a line with a call-shaped occurrence of a role-setter name
is recorded in `unprotected_role_setters` exactly when the guard marker is
absent from the four-line window of the matched line plus the following
three lines; a guard on line 4 of that window suppresses the finding, a
guard on line 5 does not. -/
theorem claimC3 (text : List Char) (k : Nat) (line name : List Char)
    (hname : name ∈ ROLE_SETTERS)
    (hget : (splitlines text)[k]? = some line)
    (hm : reCallName name line = true) :
    ((k + 1, pyStripChars line) ∈ (grep_patterns text).unprotected_role_setters ↔
      hasOwner (ctxWindow (splitlines text) k) = false)
    ∧ (grep_patterns guard4Text).unprotected_role_setters = []
    ∧ (grep_patterns guard5Text).unprotected_role_setters = [(1, setterLine0)] := by
  refine ⟨?_, by decide, by decide⟩
  have hgrep : (grep_patterns text).unprotected_role_setters = setterEntries (splitlines text) := rfl
  rw [hgrep, mem_setterEntries_iff]
  constructor
  · rintro ⟨k2, line2, name2, hget2, hn2, hr2, ho2, hj, hs⟩
    have hk : k = k2 := by omega
    subst hk
    exact ho2
  · intro ho
    exact ⟨k, line, name, hget, hname, hm, ho, rfl, rfl⟩

/-- Witness for C3 at the concrete guard-on-line-5 input. -/
theorem claimC3_witness :
    (oracleName ∈ ROLE_SETTERS
      ∧ (splitlines guard5Text)[0]? = some setterLine0
      ∧ reCallName oracleName setterLine0 = true)
    ∧ ((1, pyStripChars setterLine0) ∈ (grep_patterns guard5Text).unprotected_role_setters ↔
        hasOwner (ctxWindow (splitlines guard5Text) 0) = false) :=
  ⟨⟨by decide, by decide, by decide⟩,
    (claimC3 guard5Text 0 setterLine0 oracleName (by decide) (by decide) (by decide)).1⟩

/- Claims C6, C7 and C8: the source-tree expander. -/

/-- A text of the form brace-brace never parses: the object parser meets a
second opening brace where a key or a closing brace is required. -/
theorem parseVal_dbrace (f : Nat) (t : List Char) :
    parseVal (f + 1) ('\x7b' :: '\x7b' :: t) = none := by
  cases f with
  | zero => rfl
  | succ f2 => rfl

/-- `json.loads` fails on any text beginning with two opening braces. -/
theorem json_loads_dbrace (t : List Char) :
    json_loads ('\x7b' :: '\x7b' :: t) = none := by
  simp only [json_loads, List.length_cons]
  rw [parseVal_dbrace]

/-- Stripping is the identity on a text with non-whitespace first and last
characters. -/
theorem pyStrip_fixed (c d : Char) (mid2 : List Char)
    (hc : asciiWs c = false) (hd : asciiWs d = false) :
    pyStripChars (c :: (mid2 ++ [d])) = c :: (mid2 ++ [d]) := by
  rw [pyStripChars]
  rw [List.dropWhile_cons, if_neg (by simp [hc])]
  rw [show (c :: (mid2 ++ [d])).reverse = d :: (mid2.reverse ++ [c]) from by simp]
  rw [List.dropWhile_cons, if_neg (by simp [hd])]
  simp

/-- Claim C6 (amended): the two concrete round trips hold as stated, and
the double-brace equivalence holds for every brace-delimited payload that
parses to a JSON object containing the sources key: wrapping it in one
extra brace pair does not change the expansion. -/
theorem claimC6 :
    expand_sources payloadAB none = .ok [ (nameASol, txtX), (nameBSol, txtY) ]
    ∧ expand_sources plainPayload (some hintC) = .ok [ (nameCSol, plainPayload) ]
    ∧ (∀ (mid : List Char) (hint : Option (List Char))
        (kvs : List (List Char × Json)) (sv : Json),
        json_loads ('\x7b' :: (mid ++ [ '\x7d' ])) = some (Json.jobj kvs) →
        jlookup kvs sourcesKey = some sv →
        expand_sources (wrapBraces ('\x7b' :: (mid ++ [ '\x7d' ]))) hint =
          expand_sources ('\x7b' :: (mid ++ [ '\x7d' ])) hint) := by
  refine ⟨by rfl, by rfl, ?_⟩
  intro mid hint kvs sv h1 h2
  have hne_p : ('\x7b' :: (mid ++ [ '\x7d' ])) ≠ ([] : List Char) := by simp
  have hne_w : wrapBraces ('\x7b' :: (mid ++ [ '\x7d' ])) ≠ [] := by simp [wrapBraces]
  have hw2 : wrapBraces ('\x7b' :: (mid ++ [ '\x7d' ])) =
      '\x7b' :: '\x7b' :: ((mid ++ [ '\x7d' ]) ++ [ '\x7d' ]) := by
    simp [wrapBraces]
  have hload_w : json_loads (wrapBraces ('\x7b' :: (mid ++ [ '\x7d' ]))) = none := by
    rw [hw2]
    exact json_loads_dbrace _
  have hstrip : pyStripChars (wrapBraces ('\x7b' :: (mid ++ [ '\x7d' ]))) =
      wrapBraces ('\x7b' :: (mid ++ [ '\x7d' ])) :=
    pyStrip_fixed '\x7b' '\x7d' ('\x7b' :: (mid ++ [ '\x7d' ])) (by decide) (by decide)
  have hpre : hasPre dbraceO (wrapBraces ('\x7b' :: (mid ++ [ '\x7d' ]))) = true := by
    rw [hw2]
    rfl
  have hrev : (wrapBraces ('\x7b' :: (mid ++ [ '\x7d' ]))).reverse =
      '\x7d' :: '\x7d' :: (mid.reverse ++ [ '\x7b', '\x7b' ]) := by
    simp [wrapBraces, List.append_assoc]
  have hsuf : hasSuf dbraceC (wrapBraces ('\x7b' :: (mid ++ [ '\x7d' ]))) = true := by
    rw [hasSuf, hrev]
    rfl
  have hcand : slice1m1 (wrapBraces ('\x7b' :: (mid ++ [ '\x7d' ]))) =
      '\x7b' :: (mid ++ [ '\x7d' ]) := by
    show ((('\x7b' :: (mid ++ [ '\x7d' ])) ++ [ '\x7d' ]).dropLast) = '\x7b' :: (mid ++ [ '\x7d' ])
    exact List.dropLast_concat
  have htry_w : try_json (wrapBraces ('\x7b' :: (mid ++ [ '\x7d' ]))) =
      some (Json.jobj kvs) := by
    simp [try_json, hne_w, hload_w, hstrip, hpre, hsuf, hcand, h1]
  have htry_p : try_json ('\x7b' :: (mid ++ [ '\x7d' ])) = some (Json.jobj kvs) := by
    simp [try_json, h1]
  unfold expand_sources
  rw [if_neg hne_w, if_neg hne_p, htry_w, htry_p]
  dsimp only
  rw [h2]
  cases sv <;> rfl

/-- Counterexample to C6 as stated: wrapping the valid JSON payload
without a sources key changes the expansion, because the single-file
fallback embeds the wrapped raw text. -/
theorem claimC6_cex :
    expand_sources (wrapBraces payloadObjA) none ≠ expand_sources payloadObjA none := by
  decide

/-- Witness for C6 at the concrete two-file payload. -/
theorem claimC6_witness :
    (json_loads ('\x7b' :: (payloadABMid ++ [ '\x7d' ])) = some (Json.jobj kvsAB)
      ∧ jlookup kvsAB sourcesKey = some (Json.jobj entriesAB))
    ∧ expand_sources (wrapBraces ('\x7b' :: (payloadABMid ++ [ '\x7d' ]))) none =
        expand_sources ('\x7b' :: (payloadABMid ++ [ '\x7d' ])) none :=
  ⟨⟨by rfl, by rfl⟩,
    claimC6.2.2 payloadABMid none kvsAB (Json.jobj entriesAB) (by rfl) (by rfl)⟩

/-- Claim C7 (amended): an empty payload yields the empty unit list, and
every nonempty payload that does not parse — even after the unwrap
retry — to a JSON object containing the sources key yields exactly one
unit holding the raw payload verbatim under the fallback name.  (When a
parsed sources key is present with a non-conforming value, `expand_sources`
raises instead; see the counterexample.) -/
theorem claimC7 (src : List Char) (hint : Option (List Char))
    (h1 : src ≠ [])
    (h2 : noSourcesKeyB (try_json src) = true) :
    expand_sources src hint = .ok [(fallbackName hint ++ solSuffix, src)]
    ∧ expand_sources [] hint = .ok [] := by
  refine ⟨?_, rfl⟩
  unfold expand_sources
  rw [if_neg h1]
  cases htry : try_json src with
  | none => rfl
  | some j =>
    cases j with
    | jobj kvs =>
      rw [htry] at h2
      simp only [noSourcesKeyB, Option.isNone_iff_eq_none] at h2
      dsimp only
      rw [h2]
    | jnull => rfl
    | jbool b => rfl
    | jnum lexeme => rfl
    | jstr s => rfl
    | jarr xs => rfl

/-- Counterexample to C7 as stated: a payload whose sources key holds a
number makes `expand_sources` raise rather than fall back to a single
unit. -/
theorem claimC7_cex : expand_sources payloadBadSources none = .error () := by
  rfl

/-- Witness for C7 at a plain non-JSON payload. -/
theorem claimC7_witness :
    (plainHello ≠ [] ∧ noSourcesKeyB (try_json plainHello) = true)
    ∧ expand_sources plainHello none = .ok [(fallbackName none ++ solSuffix, plainHello)]
    ∧ expand_sources [] none = .ok [] :=
  ⟨⟨by decide, by rfl⟩, claimC7 plainHello none (by decide) (by rfl)⟩

/-- A well-shaped sources entry expands to the pair of its key and
content; folding over all entries succeeds with one unit per entry. -/
theorem mapM_unitOf : ∀ entries : List (List Char × Json),
    entries.all (fun kv => goodMetaB kv.2) = true →
    List.mapM (fun kv => unitOf kv.1 kv.2) entries =
      .ok (entries.map (fun kv => (kv.1, contentOf kv.2))) := by
  intro entries
  induction entries with
  | nil => intro h; rfl
  | cons e t ih =>
    intro h
    rw [List.all_cons, Bool.and_eq_true] at h
    obtain ⟨he, ht⟩ := h
    have hu : unitOf e.1 e.2 = .ok (e.1, contentOf e.2) := by
      cases hm : e.2 with
      | jobj m =>
        rw [hm] at he
        simp only [goodMetaB] at he
        cases hl : jlookup m contentKey with
        | none => simp [unitOf, contentOf, hl]
        | some v =>
          cases v with
          | jstr s => simp [unitOf, contentOf, hl]
          | jnull => rw [hl] at he; exact absurd he (by simp)
          | jbool b => rw [hl] at he; exact absurd he (by simp)
          | jnum lexeme => rw [hl] at he; exact absurd he (by simp)
          | jarr xs => rw [hl] at he; exact absurd he (by simp)
          | jobj kvs2 => rw [hl] at he; exact absurd he (by simp)
      | jnull => rw [hm] at he; exact absurd he (by simp [goodMetaB])
      | jbool b => rw [hm] at he; exact absurd he (by simp [goodMetaB])
      | jnum lexeme => rw [hm] at he; exact absurd he (by simp [goodMetaB])
      | jstr s => rw [hm] at he; exact absurd he (by simp [goodMetaB])
      | jarr xs => rw [hm] at he; exact absurd he (by simp [goodMetaB])
    rw [List.mapM_cons, hu, ih ht]
    rfl

/-- Claim C8 (amended): for every payload parsing to a JSON object whose
sources key holds a mapping all of whose entry values are objects with a
string content when present, `expand_sources` produces exactly one unit
per entry — the entry's key as the path and its content string (empty
when the field is missing, never skipped) as the text.  (An entry value
that is not an object, or a non-string content, makes it raise instead;
see the counterexample.) -/
theorem claimC8 (src : List Char) (hint : Option (List Char))
    (kvs entries : List (List Char × Json))
    (h1 : src ≠ [])
    (h2 : try_json src = some (Json.jobj kvs))
    (h3 : jlookup kvs sourcesKey = some (Json.jobj entries))
    (h4 : entries.all (fun kv => goodMetaB kv.2) = true) :
    expand_sources src hint = .ok (entries.map (fun kv => (kv.1, contentOf kv.2)))
    ∧ (entries.map (fun kv => (kv.1, contentOf kv.2))).length = entries.length := by
  refine ⟨?_, by simp⟩
  simp only [expand_sources, h2, h3, if_neg h1]
  exact mapM_unitOf entries h4

/-- Counterexample to C8 as stated: a sources entry whose value is a bare
string (so it lacks a content field) makes `expand_sources` raise rather
than produce a unit with empty text. -/
theorem claimC8_cex : expand_sources payloadStrMeta none = .error () := by
  rfl

/-- Witness for C8 at a payload whose first entry lacks a content
field. -/
theorem claimC8_witness :
    (payloadMissingContent ≠ []
      ∧ try_json payloadMissingContent = some (Json.jobj kvsMissing)
      ∧ jlookup kvsMissing sourcesKey = some (Json.jobj entriesMissing)
      ∧ entriesMissing.all (fun kv => goodMetaB kv.2) = true)
    ∧ expand_sources payloadMissingContent none =
        .ok (entriesMissing.map (fun kv => (kv.1, contentOf kv.2))) :=
  ⟨⟨by decide, by rfl, by rfl, by rfl⟩,
    (claimC8 payloadMissingContent none kvsMissing entriesMissing
      (by decide) (by rfl) (by rfl) (by rfl)).1⟩
